import Mathlib

/-!
A shallow embedding of the RTTI / virtual-function-table recovery core of the
SkyRETK repository (src/dump_rtti/RTTI.cpp and RTTI.h), with theorems about
its scanner (LoadVTables), its parent-table resolution (GetParentVtbl), its
per-table printer loop (the inner loop of PrintVirtuals), its hierarchy
renderer (DumpObjectClassHierarchy) and its micro-decompiler
(SimpleFunctionDecompiler).

Modelling conventions:
  * The target process image is a total byte-addressed memory `MemImg`;
    multi-byte reads are little-endian, matching the x64 target.  64-bit
    pointer subtraction wraps modulo 2 to the 64, via `sub64`.
  * The per-binary segment constants of RTTI.h (TEXT_SEG_BEGIN and friends)
    become the numeric fields of a `Config` record; `skyrimConfig` instantiates
    them with the exact RTTI.h values.  The algorithms are stated over an
    arbitrary `Config`, exactly as the C++ is written over the constants.
  * The two external name facilities (UnDecorateSymbolName from dbghelp,
    wrapped by UnmangleRTTITypeName, and std::type_info::name for foreign
    types) are oracle fields `demangleAt` / `rtNameAt` of the `Config`.
  * The structured-exception guard (__try/__except) in GetTypeDescriptor is
    modelled by the `mappedB` byte-readability predicate of the `Config`.
  * The std::map from type-descriptor address to std::list of table pointers
    is an association list `VtblMap`; `mapUpsert` models operator[] (which
    default-constructs an empty list for a fresh key) followed by a list
    operation.  The key ordering of std::map is not modelled: no theorem here
    depends on the iteration order over distinct keys, only on per-key lookup.
-/

namespace SkyRETK

/-- Byte-addressed memory image of the target process. -/
def MemImg : Type := Nat → Nat

/-- Read one byte. -/
def read8 (m : MemImg) (a : Nat) : Nat := m a % 256

/-- Read a little-endian 16-bit word, as in the C++ cast to UInt16 pointer. -/
def read16 (m : MemImg) (a : Nat) : Nat := read8 m a + 256 * read8 m (a + 1)

/-- Read a little-endian 32-bit word, as in the C++ cast to UInt32 pointer. -/
def read32 (m : MemImg) (a : Nat) : Nat := read16 m a + 65536 * read16 m (a + 2)

/-- Read a little-endian 64-bit word, as in the C++ cast to UInt64 pointer. -/
def read64 (m : MemImg) (a : Nat) : Nat :=
  read32 m a + 4294967296 * read32 m (a + 4)

/-- Pointer subtraction of 64-bit addresses, wrapping modulo 2 to the 64 like
the C++ pointer arithmetic (used for the locator at j minus 0x0C and for the
meta field one word before a table). -/
def sub64 (a b : Nat) : Nat := if b ≤ a then a - b else a + 18446744073709551616 - b

/-- TEXT_SEG_BEGIN from RTTI.h (offset of the code segment start). -/
def TEXT_SEG_BEGIN : Nat := 0x00001000

/-- PURE_CALL_ADDR from RTTI.h (the abstract-call trap function). -/
def PURE_CALL_ADDR : Nat := 0x01471648

/-- TEXT_SEG_END from RTTI.h. -/
def TEXT_SEG_END : Nat := 0x015fcb8c

/-- RDATA_SEG_BEGIN from RTTI.h. -/
def RDATA_SEG_BEGIN : Nat := 0x015fd000

/-- TYPE_INFO_VTBL from RTTI.h (offset of the vftable of type_info). -/
def TYPE_INFO_VTBL : Nat := 0x019752c0

/-- RDATA_SEG_END from RTTI.h. -/
def RDATA_SEG_END : Nat := 0x01e3c276

/-- DATA_SEG_BEGIN from RTTI.h. -/
def DATA_SEG_BEGIN : Nat := 0x01e3d000

/-- DATA_SEG_END from RTTI.h. -/
def DATA_SEG_END : Nat := 0x0352baf0

/-- COL_SIG_REV1 from RTTI.h: the x64 complete-object-locator signature. -/
def COL_SIG_REV1 : Nat := 1

/-- The constant table of RTTI.h plus the two external facilities, threaded
through the embedded functions exactly where the C++ uses the globals.
`mappedB` tells which bytes can be read without an access violation (this
models the __try/__except guard); `demangleAt` gives the demangled name
produced by UnmangleRTTITypeName for the mangled string at an address, and
`rtNameAt` gives std::type_info::name() for a foreign type at an address. -/
structure Config where
  textBegin : Nat
  textEnd : Nat
  pureCallOff : Nat
  rdataBegin : Nat
  rdataEnd : Nat
  typeInfoVtbl : Nat
  dataBegin : Nat
  dataEnd : Nat
  mappedB : Nat → Bool
  demangleAt : Nat → String
  rtNameAt : Nat → String

/-- The configuration for Skyrim 1.6.659 (GOG), i.e. exactly the constants of
RTTI.h, parameterised by the external oracles. -/
def skyrimConfig (mapped : Nat → Bool) (dem rtn : Nat → String) : Config :=
  ⟨TEXT_SEG_BEGIN, TEXT_SEG_END, PURE_CALL_ADDR, RDATA_SEG_BEGIN, RDATA_SEG_END,
   TYPE_INFO_VTBL, DATA_SEG_BEGIN, DATA_SEG_END, mapped, dem, rtn⟩

/-- The test textStart less-equal v less textEnd, written at each scan and
print loop of RTTI.cpp. -/
abbrev inText (cfg : Config) (base v : Nat) : Prop :=
  base + cfg.textBegin ≤ v ∧ v < base + cfg.textEnd

/-- The address list visited by a C++ loop
for (x = lo; x < hi; x += step). -/
def scanAddrs (lo hi step : Nat) : List Nat :=
  List.range' lo ((hi - lo + (step - 1)) / step) step

/-- The map from TypeDescriptor address to the list of VFT addresses
(std::map of UInt64 to VtblList), as an association list. -/
def VtblMap : Type := List (Nat × List Nat)

/-- Lookup in the vtbl map (std::map::find). -/
def findVtbl (vm : VtblMap) (key : Nat) : Option (List Nat) :=
  match vm with
  | [] => none
  | (k, l) :: rest => if k = key then some l else findVtbl rest key

/-- The effect of vtblMap[key] (default-constructing an empty list when the
key is fresh) followed by a list operation f on that entry. -/
def mapUpsert (vm : VtblMap) (key : Nat) (f : List Nat → List Nat) : VtblMap :=
  match vm with
  | [] => [(key, f [])]
  | (k, l) :: rest =>
      if k = key then (k, f l) :: rest else (k, l) :: mapUpsert rest key f

/-- vtblMap[key].push_front(v). -/
def pushFront (vm : VtblMap) (key v : Nat) : VtblMap :=
  mapUpsert vm key (fun l => v :: l)

/-- vtblMap[key].push_back(v). -/
def pushBack (vm : VtblMap) (key v : Nat) : VtblMap :=
  mapUpsert vm key (fun l => l ++ [v])

/-- One iteration of the innermost (k) loop of LoadVTables: a candidate meta
field.  If the 64-bit word at k equals the locator address, the table starts
at k + 8; the table is recorded iff its first entry is in the code region,
pushed front for a locator offset of 0 and back otherwise
(RTTI.cpp lines 111 to 128). -/
def scanMetaStep (m : MemImg) (cfg : Config) (base pCol : Nat)
    (vm : VtblMap) (k : Nat) : VtblMap :=
  if read64 m k = pCol then
    if inText cfg base (read64 m (k + 8)) then
      if read32 m (pCol + 4) = 0 then
        pushFront vm (base + read32 m (pCol + 12)) (k + 8)
      else
        pushBack vm (base + read32 m (pCol + 12)) (k + 8)
    else vm
  else vm

/-- One iteration of the middle (j) loop of LoadVTables: a candidate
pTypeDescriptor field.  The locator candidate sits 0x0C bytes earlier; its
signature must be COL_SIG_REV1 and its cdOffset must be zero, otherwise the
candidate is skipped (RTTI.cpp lines 86 to 129). -/
def scanLocatorStep (m : MemImg) (cfg : Config) (base tdOff : Nat)
    (vm : VtblMap) (j : Nat) : VtblMap :=
  if read32 m j = tdOff then
    let pCol := sub64 j 12
    if read32 m pCol ≠ COL_SIG_REV1 then vm
    else if read32 m (pCol + 8) ≠ 0 then vm
    else
      (scanAddrs (base + cfg.rdataBegin) (base + cfg.rdataEnd) 8).foldl
        (scanMetaStep m cfg base pCol) vm
  else vm

/-- One iteration of the outer (i) loop of LoadVTables: a candidate
TypeDescriptor, recognised by an 8-byte word equal to the type_info vftable
address; its 32-bit offset from base is then searched in the read-only
region (RTTI.cpp lines 66 to 132). -/
def scanTypeStep (m : MemImg) (cfg : Config) (base : Nat)
    (vm : VtblMap) (i : Nat) : VtblMap :=
  if read64 m i = base + cfg.typeInfoVtbl then
    (scanAddrs (base + cfg.rdataBegin) (base + cfg.rdataEnd) 4).foldl
      (scanLocatorStep m cfg base ((i - base) % 4294967296)) vm
  else vm

/-- LoadVTables of RTTI.cpp: three nested linear scans building the
type-to-tables map, starting from the empty map. -/
def LoadVTables (m : MemImg) (cfg : Config) (base : Nat) : VtblMap :=
  (scanAddrs (base + cfg.dataBegin) (base + cfg.dataEnd) 8).foldl
    (scanTypeStep m cfg base) []

/-- Provenance record for one accepted table: the map key it is recorded
under, the locator offset that decided front or back insertion, and the table
address itself. -/
structure ScanEvent where
  key : Nat
  offset : Nat
  vtbl : Nat
deriving DecidableEq

/-- Replay one insertion: front for offset 0, back otherwise, exactly the
ternary at RTTI.cpp lines 124 to 126. -/
def applyEvent (vm : VtblMap) (e : ScanEvent) : VtblMap :=
  if e.offset = 0 then pushFront vm e.key e.vtbl else pushBack vm e.key e.vtbl

/-- Replay a sequence of insertions. -/
def applyEvents (vm : VtblMap) (es : List ScanEvent) : VtblMap :=
  es.foldl applyEvent vm

/-- The insertions performed by one k iteration (same guards as
`scanMetaStep`). -/
def metaEventsAt (m : MemImg) (cfg : Config) (base pCol k : Nat) :
    List ScanEvent :=
  if read64 m k = pCol then
    if inText cfg base (read64 m (k + 8)) then
      [⟨base + read32 m (pCol + 12), read32 m (pCol + 4), k + 8⟩]
    else []
  else []

/-- The insertions performed by one j iteration (same guards as
`scanLocatorStep`). -/
def locatorEventsAt (m : MemImg) (cfg : Config) (base tdOff j : Nat) :
    List ScanEvent :=
  if read32 m j = tdOff then
    let pCol := sub64 j 12
    if read32 m pCol ≠ COL_SIG_REV1 then []
    else if read32 m (pCol + 8) ≠ 0 then []
    else
      (scanAddrs (base + cfg.rdataBegin) (base + cfg.rdataEnd) 8).flatMap
        (metaEventsAt m cfg base pCol)
  else []

/-- The insertions performed by one i iteration (same guards as
`scanTypeStep`). -/
def typeEventsAt (m : MemImg) (cfg : Config) (base i : Nat) : List ScanEvent :=
  if read64 m i = base + cfg.typeInfoVtbl then
    (scanAddrs (base + cfg.rdataBegin) (base + cfg.rdataEnd) 4).flatMap
      (locatorEventsAt m cfg base ((i - base) % 4294967296))
  else []

/-- All insertions performed by the whole scan, in program order. -/
def scanEvents (m : MemImg) (cfg : Config) (base : Nat) : List ScanEvent :=
  (scanAddrs (base + cfg.dataBegin) (base + cfg.dataEnd) 8).flatMap
    (typeEventsAt m cfg base)

/-- The insertions whose map key is `key`. -/
def eventsForKey (key : Nat) (es : List ScanEvent) : List ScanEvent :=
  es.filter (fun e => e.key == key)

/-- The tables among `es` that were discovered through a locator with
offset 0 (the front-inserted, primary tables), in event order. -/
def primaryVtbls (es : List ScanEvent) : List Nat :=
  (es.filter (fun e => e.offset == 0)).map ScanEvent.vtbl

/-- The tables among `es` discovered through a locator with nonzero offset
(the back-appended, secondary tables), in event order. -/
def secondaryVtbls (es : List ScanEvent) : List Nat :=
  (es.filter (fun e => !(e.offset == 0))).map ScanEvent.vtbl

/-- The inner loop of GetParentVtbl (RTTI.cpp lines 456 to 472), iterating
the base-class array from index i for rem further indices: the first base
class whose mdisp equals the locator offset and whose type descriptor is a
key of the map yields the front of that type's table list. -/
def searchBasesAux (m : MemImg) (vm : VtblMap) (base colOffset arr : Nat) :
    Nat → Nat → Option Nat
  | _, 0 => none
  | i, rem + 1 =>
      let bc := base + read32 m (arr + i * 4)
      if read32 m (bc + 8) = colOffset then
        match findVtbl vm (base + read32 m bc) with
        | some l => some (l.headD 0)
        | none => searchBasesAux m vm base colOffset arr (i + 1) rem
      else searchBasesAux m vm base colOffset arr (i + 1) rem

/-- GetParentVtbl of RTTI.cpp: reads the locator address from the word before
the table, requires a non-null pClassDescriptor, then walks the base-class
array from index 1 (skipping the self entry).  std::list front() is modelled
by headD 0 (the scanner never records an empty list, see the map invariant
theorem). -/
def GetParentVtbl (m : MemImg) (vm : VtblMap) (base vtbl : Nat) : Option Nat :=
  let pCol := read64 m (sub64 vtbl 8)
  if read32 m (pCol + 16) ≠ 0 then
    let hier := base + read32 m (pCol + 16)
    searchBasesAux m vm base (read32 m (pCol + 4))
      (base + read32 m (hier + 12)) 1 (read32 m (hier + 8) - 1)
  else none

/-- The parent-table resolution as the specification words it: the FIRST base
class (index order, starting at 1) whose member displacement equals the
locator's own offset AND whose type descriptor address is a key of the map
yields the front of that type's list; otherwise none. -/
def parentVtblSpec (m : MemImg) (vm : VtblMap) (base vtbl : Nat) : Option Nat :=
  let pCol := read64 m (sub64 vtbl 8)
  let hier := base + read32 m (pCol + 16)
  let arr := base + read32 m (hier + 12)
  ((List.range' 1 (read32 m (hier + 8) - 1) 1).find? (fun i =>
      (read32 m (base + read32 m (arr + i * 4) + 8) == read32 m (pCol + 4)) &&
      (findVtbl vm (base + read32 m (base + read32 m (arr + i * 4)))).isSome)).bind
    (fun i => (findVtbl vm (base + read32 m (base + read32 m (arr + i * 4)))).map
      (fun l => l.headD 0))

/-- True when n consecutive bytes from a are readable (the whole-structure
precondition for a guarded C++ dereference). -/
def mappedRange (cfg : Config) (a n : Nat) : Bool :=
  (List.range n).all (fun k => cfg.mappedB (a + k))

/-- GetTypeDescriptor of RTTI.cpp: read the locator pointer one word before
the table, then the pTypeDescriptor field; the __try/__except that turns an
access violation into a null result is modelled by the mappedB guard. -/
def GetTypeDescriptor (m : MemImg) (cfg : Config) (base vtbl : Nat) :
    Option Nat :=
  if mappedRange cfg (sub64 vtbl 8) 8 then
    let pCol := read64 m (sub64 vtbl 8)
    if mappedRange cfg (pCol + 12) 4 then some (base + read32 m (pCol + 12))
    else none
  else none

/-- GetUnmangledTypeName of RTTI.cpp: a type whose pVFTable equals the
type_info vftable address is a Skyrim type and is demangled (the name string
lives at offset 0x10 of the TypeDescriptor); anything else is a foreign type
and reported through std::type_info::name. -/
def GetUnmangledTypeName (m : MemImg) (cfg : Config) (base t : Nat) : String :=
  if read64 m t = base + cfg.typeInfoVtbl then cfg.demangleAt (t + 16)
  else cfg.rtNameAt t

/-- GetObjectClassName of RTTI.cpp. -/
def GetObjectClassName (m : MemImg) (cfg : Config) (base vtbl : Nat) : String :=
  match GetTypeDescriptor m cfg base vtbl with
  | some t => GetUnmangledTypeName m cfg base t
  | none => "<no rtti>"

/-- Uppercase hexadecimal digit. -/
def hexDigitChar (n : Nat) : Char :=
  if n < 10 then Char.ofNat (48 + n) else Char.ofNat (55 + n)

/-- Digits of n in base 16, most significant first (fuelled; 17 digits cover
any 64-bit value). -/
def toHexCore : Nat → Nat → List Char
  | 0, _ => []
  | fuel + 1, n => if n = 0 then [] else toHexCore fuel (n / 16) ++ [hexDigitChar (n % 16)]

/-- printf %X: minimal-width uppercase hexadecimal. -/
def toHex (n : Nat) : String :=
  if n = 0 then "0" else String.mk (toHexCore 17 n)

/-- printf %0wX: fixed-width zero-padded uppercase hexadecimal. -/
def toHexPad (w n : Nat) : String :=
  String.mk ((List.range w).map (fun k => hexDigitChar (n / 16 ^ (w - 1 - k) % 16)))

/-- printf %X applied to a sign-extended SInt8 (the C++ prints the 32-bit
two's-complement pattern of the promoted int). -/
def sint8Hex (c : Nat) : String :=
  if c < 128 then toHex c else toHex (c + 4294967040)

/-- The result of the first-instruction pattern match of
SimpleFunctionDecompiler: inferred return type, inferred body, and the byte
size of the matched opening (0 when nothing matched). -/
structure Opening where
  ret : String
  body : String
  size : Nat

/-- The first-instruction pattern catalogue of SimpleFunctionDecompiler
(RTTI.cpp lines 489 to 687), in source order.  Note that the two
absolute-address loads read a full 64-bit word after the opcode, exactly as
the C++ cast to UInt32 double pointer does, and print its low 32 bits. -/
def decodeOpening (m : MemImg) (cfg : Config) (base funcAddr : Nat) : Opening :=
  let c : Nat → Nat := fun k => read8 m (funcAddr + k)
  if c 0 = 0x32 ∧ c 1 = 0xC0 then
    ⟨"bool  ", "\x7b return false; \x7d", 2⟩
  else if c 0 = 0x33 ∧ c 1 = 0xC0 then
    ⟨"UInt32", "\x7b return 0; \x7d", 2⟩
  else if c 0 = 0x83 ∧ c 1 = 0xC8 ∧ c 2 = 0xFF then
    ⟨"Sint32", "\x7b return -1; \x7d", 3⟩
  else if c 0 = 0x0F ∧ c 1 = 0x57 ∧ c 2 = 0xC0 then
    ⟨"float", "\x7b return 0.0f; \x7d", 3⟩
  else if c 0 = 0xB0 then
    if c 1 = 0 then ⟨"bool  ", "\x7b return false; \x7d", 2⟩
    else if c 1 = 1 then ⟨"bool  ", "\x7b return true; \x7d", 2⟩
    else ⟨"UInt8 ", "\x7b return 0x" ++ toHexPad 2 (c 1) ++ "; \x7d", 2⟩
  else if c 0 = 0x8A then
    if c 1 = 0x41 then
      ⟨"UInt8 ", "\x7b return (UInt8)unk" ++ sint8Hex (c 2) ++ "; \x7d", 3⟩
    else if c 1 = 0x81 then
      ⟨"UInt8 ", "\x7b return (UInt8)unk" ++ toHex (read32 m (funcAddr + 2)) ++ "; \x7d", 6⟩
    else ⟨"????  ", "", 0⟩
  else if c 0 = 0x48 ∧ c 1 = 0x8B then
    if c 2 = 0xC1 then ⟨"void *", "\x7b return this; \x7d", 3⟩
    else if c 2 = 0x41 then
      ⟨"UInt64", "\x7b return (UInt64)unk" ++ sint8Hex (c 3) ++ "; \x7d", 4⟩
    else if c 2 = 0x81 then
      ⟨"UInt64", "\x7b return (UInt64)unk" ++ toHex (read32 m (funcAddr + 3)) ++ "; \x7d", 7⟩
    else ⟨"????  ", "", 0⟩
  else if c 0 = 0xB8 then
    let p := read64 m (funcAddr + 1)
    match GetTypeDescriptor m cfg base p with
    | some t =>
        let r := GetUnmangledTypeName m cfg base t ++ " *"
        ⟨r, "\x7b return (" ++ r ++ ")0x" ++ toHexPad 8 (p % 4294967296) ++ "; \x7d", 5⟩
    | none =>
        ⟨"UInt32", "\x7b return 0x" ++ toHexPad 8 (p % 4294967296) ++ "; \x7d", 5⟩
  else if c 0 = 0x48 ∧ c 1 = 0x8D then
    if c 2 = 0x41 then
      ⟨"void *", "\x7b return &unk" ++ sint8Hex (c 3) ++ "; \x7d", 4⟩
    else if c 2 = 0x81 then
      ⟨"void *", "\x7b return &unk" ++ toHex (read32 m (funcAddr + 3)) ++ "; \x7d", 7⟩
    else if c 3 = 0x05 then
      let p := read64 m (funcAddr + 4)
      match GetTypeDescriptor m cfg base p with
      | some t =>
          let r := GetUnmangledTypeName m cfg base t ++ " *"
          ⟨r, "\x7b return (" ++ r ++ ")0x" ++ toHexPad 8 (p % 4294967296) ++ "; \x7d", 7⟩
      | none =>
          ⟨"UInt32", "\x7b return 0x" ++ toHexPad 8 (p % 4294967296) ++ "; \x7d", 7⟩
    else ⟨"????  ", "", 0⟩
  else ⟨"????  ", "", 0⟩

/-- The second-instruction parse of SimpleFunctionDecompiler (RTTI.cpp lines
689 to 732): a bare return, a return-and-pop with its parameter table, or
none at all. -/
def paramsForRet (m : MemImg) (a : Nat) : Option String :=
  if read8 m a = 0xC3 then some "void"
  else if read8 m a = 0xC2 then
    let imm := read16 m (a + 1)
    some (if imm = 0 then "void"
      else if imm = 4 then "UInt32 arg"
      else if imm = 8 then "UInt32 arg1, UInt32 arg2"
      else if imm = 12 then "UInt32 arg1, UInt32 arg2, UInt32 arg3"
      else if imm = 16 then "UInt32 arg1, UInt32 arg2, UInt32 arg3, UInt32 arg4"
      else "UInt32 * " ++ toString (imm / 4))
  else none

/-- SimpleFunctionDecompiler of RTTI.cpp.  The three in/out string arguments
are returned unchanged when the byte after the matched opening is not a
return instruction of either form; a zero-size opening followed by a return
yields the void stub. -/
def SimpleFunctionDecompiler (m : MemImg) (cfg : Config) (base funcAddr : Nat)
    (retIn paramsIn bodyIn : String) : String × String × String :=
  let o := decodeOpening m cfg base funcAddr
  match paramsForRet m (funcAddr + o.size) with
  | none => (retIn, paramsIn, bodyIn)
  | some params =>
      if o.size = 0 then ("void  ", params, "\x7b return; \x7d")
      else (o.ret, params, o.body)

/-- One output line of the PrintVirtuals per-table loop, keeping the data the
claims are about: the override annotation line (with the parent class name as
resolved by GetObjectClassName and the child table address it is printed
with), the add annotation line, and one rendered slot (index, presence of the
override qualifier, slot value, and the three decompiler strings).  The
fixed-column text formatting of the slot line carries no further data. -/
inductive OutLine where
  | overrideAnn (className : String) (vtbl : Nat)
  | addAnn
  | slot (i : Nat) (isOverride : Bool) (addr : Nat) (ret params body : String)
deriving DecidableEq

/-- The ret, params and body strings a rendered slot carries: the pure-call
trap keeps the placeholders with a "(pure)" body, anything else goes through
the decompiler with the placeeholder strings as the in/out arguments
(RTTI.cpp lines 194 to 203). -/
def slotStrings (m : MemImg) (cfg : Config) (base v : Nat) :
    String × String × String :=
  if v = base + cfg.pureCallOff then ("????  ", "????", "(pure)")
  else SimpleFunctionDecompiler m cfg base v "????  " "????" ""

/-- The lines printed for one rendered slot: the once-per-table annotation
(override when a parent is still active and the flag is unset; add when the
parent is gone, the flag is unset and the index is nonzero), then the slot
line itself, whose override qualifier is present exactly when a parent is
still active (RTTI.cpp lines 187 to 240). -/
def slotOutput (m : MemImg) (cfg : Config) (base vtbl i : Nat)
    (par : Option Nat) (bO bA : Bool) : List OutLine :=
  (match par with
   | some p =>
       if bO then [] else [OutLine.overrideAnn (GetObjectClassName m cfg base p) vtbl]
   | none => if bA then [] else if 0 < i then [OutLine.addAnn] else [])
  ++ [OutLine.slot i par.isSome (read64 m (vtbl + 8 * i))
        (slotStrings m cfg base (read64 m (vtbl + 8 * i))).1
        (slotStrings m cfg base (read64 m (vtbl + 8 * i))).2.1
        (slotStrings m cfg base (read64 m (vtbl + 8 * i))).2.2]

/-- The slot loop of PrintVirtuals (RTTI.cpp lines 168 to 241), from slot i,
with the current parent table (none once exhausted) and the two once-per-table
flags bOverride and bAdd.  The loop stops at the first slot value outside the
code region; `fuel` bounds the number of iterations (the C++ loop is bounded
by the finite image). -/
def printSlots (m : MemImg) (cfg : Config) (base vtbl : Nat) :
    Nat → Nat → Option Nat → Bool → Bool → List OutLine
  | 0, _, _, _, _ => []
  | fuel + 1, i, par, bO, bA =>
      if inText cfg base (read64 m (vtbl + 8 * i)) then
        match par with
        | some p =>
            if inText cfg base (read64 m (p + 8 * i)) then
              if read64 m (vtbl + 8 * i) = read64 m (p + 8 * i) then
                printSlots m cfg base vtbl fuel (i + 1) (some p) bO bA
              else
                slotOutput m cfg base vtbl i (some p) bO bA
                  ++ printSlots m cfg base vtbl fuel (i + 1) (some p) true bA
            else
              slotOutput m cfg base vtbl i none bO bA
                ++ printSlots m cfg base vtbl fuel (i + 1) none bO true
        | none =>
            slotOutput m cfg base vtbl i none bO bA
              ++ printSlots m cfg base vtbl fuel (i + 1) none bO true
      else []

/-- The per-table body of PrintVirtuals: resolve the parent table, then run
the slot loop from index 0 with both flags clear. -/
def printVirtualsTable (m : MemImg) (cfg : Config) (base : Nat) (vm : VtblMap)
    (fuel vtbl : Nat) : List OutLine :=
  printSlots m cfg base vtbl fuel 0 (GetParentVtbl m vm base vtbl) false false

/-- Number of override annotation lines. -/
def countOA (ls : List OutLine) : Nat :=
  ls.countP (fun l => match l with | OutLine.overrideAnn _ _ => true | _ => false)

/-- Number of add annotation lines. -/
def countAA (ls : List OutLine) : Nat :=
  ls.countP (fun l => match l with | OutLine.addAnn => true | _ => false)

/-- True for a slot line carrying the override qualifier. -/
def isOverrideSlot : OutLine → Bool
  | OutLine.slot _ true _ _ _ _ => true
  | _ => false

/-- True for an override annotation line. -/
def isOverrideAnnLine : OutLine → Bool
  | OutLine.overrideAnn _ _ => true
  | _ => false

/-- One row of the class-hierarchy dump: the displayed member displacement,
the number of indent bars printed before the name, and the displayed type
name. -/
structure HierRow where
  mdisp : Nat
  bars : Nat
  typeName : String
deriving DecidableEq

/-- The base-class loop of DumpObjectClassHierarchy (RTTI.cpp lines 270 to
304), from index i for rem further rows, carrying the depth vector (a
std::vector of nTotal counters, modelled as a function).  Each row seeds its
own counter with numContainedBases plus one, prints one bar per still-positive
counter at indices above 0, then decrements every positive counter. -/
def dumpRowsAux (m : MemImg) (cfg : Config) (base arr nTotal : Nat) :
    Nat → Nat → (Nat → Nat) → List HierRow
  | _, 0, _ => []
  | i, rem + 1, depth =>
      let bc := base + read32 m (arr + i * 4)
      let depth1 := fun n => if n = i then read32 m (bc + 4) + 1 else depth n
      let bars := (List.range' 1 (nTotal - 1) 1).countP (fun n => decide (0 < depth1 n))
      ⟨read32 m (bc + 8), bars, GetUnmangledTypeName m cfg base (base + read32 m bc)⟩
        :: dumpRowsAux m cfg base arr nTotal (i + 1) rem (fun n => depth1 n - 1)

/-- The rendered rows of DumpObjectClassHierarchy for a hierarchy descriptor:
the loop runs over the WHOLE base-class array, from index 0 to
numBaseClasses - 1 (RTTI.cpp line 275), starting from an all-zero depth
vector. -/
def dumpRows (m : MemImg) (cfg : Config) (base hier : Nat) : List HierRow :=
  dumpRowsAux m cfg base (base + read32 m (hier + 12)) (read32 m (hier + 8))
    0 (read32 m (hier + 8)) (fun _ => 0)

/-- The renderer as the specification words it: the same rendering loop but
"skipping index 0 (the self entry)", i.e. starting at index 1 with only
numBaseClasses - 1 rows.  Kept purely to compare against `dumpRows`. -/
def dumpRowsSkipSelfSpec (m : MemImg) (cfg : Config) (base hier : Nat) :
    List HierRow :=
  dumpRowsAux m cfg base (base + read32 m (hier + 12)) (read32 m (hier + 8))
    1 (read32 m (hier + 8) - 1) (fun _ => 0)

/-- numContainedBases of the base-class descriptor at index j of the array at
arr. -/
def cbAt (m : MemImg) (base arr j : Nat) : Nat :=
  read32 m (base + read32 m (arr + j * 4) + 4)

/-- where.mdisp of the base-class descriptor at index j. -/
def mdispAt (m : MemImg) (base arr j : Nat) : Nat :=
  read32 m (base + read32 m (arr + j * 4) + 8)

/-- The displayed name of the base class at index j: its type descriptor
lives at base plus the pTypeDescriptor field of the base-class descriptor. -/
def rowNameAt (m : MemImg) (cfg : Config) (base arr j : Nat) : String :=
  GetUnmangledTypeName m cfg base (base + read32 m (base + read32 m (arr + j * 4)))

/-- Closed form for the indent-bar count of row i: one bar for every index n
in 1 to i whose entry is still open at row i, i.e. with n plus its
contained-base count at least i (its own row and the next numContainedBases
rows). -/
def barsSpec (m : MemImg) (base arr i : Nat) : Nat :=
  (List.range' 1 i 1).countP (fun n => decide (i ≤ n + cbAt m base arr n))

/-- Build a byte image from an association list of nonzero bytes. -/
def memBytes (l : List (Nat × Nat)) : MemImg :=
  fun a => ((l.lookup a).getD 0)

/-- All-zero memory image. -/
def memZero : MemImg := fun _ => 0

/-- Small configuration used by the concrete witnesses: code region 0x10 to
0x100, read-only region 0x200 to 0x240, read-write region 0x100 to 0x108,
type_info vftable at offset 0x500, pure-call trap at offset 0xF0; no byte is
considered safely readable and the name oracles are constant. -/
def cfgSmall : Config :=
  ⟨0x10, 0x100, 0xF0, 0x200, 0x240, 0x500, 0x100, 0x108,
   fun _ => false, fun _ => "D", fun _ => "R"⟩

/-- Memory image for the scanner witness: one TypeDescriptor candidate at
0x100 (pointing at the type_info vftable 0x500), one valid locator at 0x200
(signature 1, offset 0, cdOffset 0, pTypeDescriptor 0x100), one meta field at
0x220 pointing at the locator, and the table at 0x228 whose first entry 0x20
is in the code region. -/
def memScan : MemImg :=
  memBytes [(0x101, 5), (0x200, 1), (0x20D, 1), (0x221, 2), (0x228, 0x20)]

/-- Memory image for the parent-resolution witness: table at 0x300 whose
locator 0x600 has offset 5 and hierarchy descriptor 0x700 with three base
classes at 0x740, 0x750, 0x760; entries 1 and 2 both have mdisp 5, but only
entry 2's type descriptor 0x810 is a key of the map. -/
def memC3 : MemImg :=
  memBytes [(0x2F9, 6), (0x604, 5), (0x611, 7), (0x708, 3),
            (0x70C, 0x20), (0x70D, 7), (0x720, 0x40), (0x721, 7),
            (0x724, 0x50), (0x725, 7), (0x728, 0x60), (0x729, 7),
            (0x751, 8), (0x758, 5),
            (0x760, 0x10), (0x761, 8), (0x768, 5)]

/-- Map for the parent-resolution witness. -/
def vmC3 : VtblMap := [(0x810, [0x999, 0x111])]

/-- Shared layout for the printer witnesses: child table at 0x300 with slots
0x20, 0x30 and then 0 (end of table); parent table at 0x400 with slot 0 equal
to 0x20; the child's locator at 0x600 has offset 0 and hierarchy 0x700 whose
base entry 1 (descriptor 0x750, mdisp 0) names type 0x800. -/
def printLayout : List (Nat × Nat) :=
  [(0x2F9, 6), (0x300, 0x20), (0x308, 0x30), (0x400, 0x20),
   (0x611, 7), (0x708, 2), (0x70C, 0x20), (0x70D, 7),
   (0x724, 0x50), (0x725, 7), (0x751, 8)]

/-- Printer witness memory where the parent's slot 1 is 0x40: in the code
region and different from the child's 0x30 (an override). -/
def memPrintA : MemImg := memBytes (printLayout ++ [(0x408, 0x40)])

/-- Printer witness memory where the parent's slot 1 is 0x2000: outside the
code region (the parent table is exhausted at index 1). -/
def memPrintB : MemImg := memBytes (printLayout ++ [(0x409, 0x20)])

/-- Map for the printer witnesses: type 0x800 owns the parent table 0x400. -/
def vmPrint : VtblMap := [(0x800, [0x400])]

/-- Bytes B0 01 C3 at address 0x40. -/
def memDecA : MemImg := memBytes [(0x40, 0xB0), (0x41, 1), (0x42, 0xC3)]

/-- Bytes 32 C0 C3 at address 0x40. -/
def memDecB : MemImg := memBytes [(0x40, 0x32), (0x41, 0xC0), (0x42, 0xC3)]

/-- Bytes 48 8B C1 C3 at address 0x40. -/
def memDecC : MemImg := memBytes [(0x40, 0x48), (0x41, 0x8B), (0x42, 0xC1), (0x43, 0xC3)]

/-- Bytes 32 C0 C2 14 00 at address 0x40: recognised opening, then return
and pop 20 bytes (a 4-byte multiple larger than 16). -/
def memC6a : MemImg :=
  memBytes [(0x40, 0x32), (0x41, 0xC0), (0x42, 0xC2), (0x43, 0x14)]

/-- Bytes 32 C0 C2 06 00 at address 0x40: recognised opening, then return
and pop 6 bytes (not a 4-byte multiple). -/
def memC6b : MemImg :=
  memBytes [(0x40, 0x32), (0x41, 0xC0), (0x42, 0xC2), (0x43, 6)]

/-- Bytes 32 C0 90 at address 0x40: recognised opening, then a byte that is
neither return form. -/
def memC7 : MemImg := memBytes [(0x40, 0x32), (0x41, 0xC0), (0x42, 0x90)]

/-- Memory for the hierarchy-renderer witness and counterexample: hierarchy
descriptor at 0x700 with three base classes; entry 0 (the self entry) has
mdisp 7 and contained-base count 2, entry 1 has mdisp 9, entry 2 has
mdisp 11. -/
def memC9 : MemImg :=
  memBytes [(0x708, 3), (0x70C, 0x20), (0x70D, 7),
            (0x720, 0x40), (0x721, 7), (0x724, 0x50), (0x725, 7),
            (0x728, 0x60), (0x729, 7),
            (0x744, 2), (0x748, 7), (0x758, 9), (0x768, 0x0B)]

/-- Memory image whose candidate locator at 8 has a valid signature but a
nonzero cdOffset field (byte 1 at address 16). -/
def memW2 : MemImg := memBytes [(8, 1), (16, 1)]

/-- The effect of one replayed insertion on one key's list: prepend for a
zero locator offset, append otherwise (a fresh key starts from the empty
list). -/
def listStep (o : Option (List Nat)) (e : ScanEvent) : List Nat :=
  if e.offset = 0 then e.vtbl :: o.getD [] else o.getD [] ++ [e.vtbl]

lemma searchBasesAux_eq_find (m : MemImg) (vm : VtblMap) (base off arr : Nat) :
    ∀ (rem i : Nat),
      searchBasesAux m vm base off arr i rem =
        ((List.range' i rem 1).find? (fun k =>
            (read32 m (base + read32 m (arr + k * 4) + 8) == off) &&
            (findVtbl vm (base + read32 m (base + read32 m (arr + k * 4)))).isSome)).bind
          (fun k => (findVtbl vm (base + read32 m (base + read32 m (arr + k * 4)))).map
            (fun l => l.headD 0)) := by
  intro rem
  induction rem with
  | zero => intro i; rfl
  | succ rem ih =>
      intro i
      rw [searchBasesAux, List.range'_succ]
      by_cases hm : read32 m (base + read32 m (arr + i * 4) + 8) = off
      · cases hf : findVtbl vm (base + read32 m (base + read32 m (arr + i * 4))) with
        | none => simp [hm, hf, List.find?_cons, ih (i + 1)]
        | some l => simp [hm, hf, List.find?_cons]
      · simp [hm, List.find?_cons, ih (i + 1)]

/-- C1: in LoadVTables, a candidate complete object locator contributes a
table only if its signature equals COL_SIG_REV1, its cdOffset is zero, and
the first entry of the candidate table is inside the code region; a candidate
failing any of these checks leaves the map unchanged (and there is no error
channel at all).  The first two conjuncts are the signature and cdOffset
rejections at the locator step, the third is the code-region rejection at the
meta step, and the fourth shows that a candidate passing all checks does
contribute its table. -/
theorem scanner_candidate_validation :
    (∀ (m : MemImg) (cfg : Config) (base tdOff : Nat) (vm : VtblMap) (j : Nat),
       read32 m (sub64 j 12) ≠ COL_SIG_REV1 →
       scanLocatorStep m cfg base tdOff vm j = vm) ∧
    (∀ (m : MemImg) (cfg : Config) (base tdOff : Nat) (vm : VtblMap) (j : Nat),
       read32 m (sub64 j 12 + 8) ≠ 0 →
       scanLocatorStep m cfg base tdOff vm j = vm) ∧
    (∀ (m : MemImg) (cfg : Config) (base pCol : Nat) (vm : VtblMap) (k : Nat),
       ¬ inText cfg base (read64 m (k + 8)) →
       scanMetaStep m cfg base pCol vm k = vm) ∧
    (∀ (m : MemImg) (cfg : Config) (base pCol : Nat) (vm : VtblMap) (k : Nat),
       read64 m k = pCol → inText cfg base (read64 m (k + 8)) →
       scanMetaStep m cfg base pCol vm k =
         if read32 m (pCol + 4) = 0 then
           pushFront vm (base + read32 m (pCol + 12)) (k + 8)
         else pushBack vm (base + read32 m (pCol + 12)) (k + 8)) := by
  refine ⟨?_, ?_, ?_, ?_⟩
  · intro m cfg base tdOff vm j h
    simp [scanLocatorStep, h]
  · intro m cfg base tdOff vm j h
    by_cases hs : read32 m (sub64 j 12) ≠ COL_SIG_REV1 <;>
      simp [scanLocatorStep, h, hs]
  · intro m cfg base pCol vm k h
    simp [scanMetaStep, h]
  · intro m cfg base pCol vm k h1 h2
    simp [scanMetaStep, h1, h2]

/-- Witness for the validation theorem: a zero image fails the signature
check, memW2 fails the cdOffset check, the zero image fails the code-region
check, and the single valid candidate of memScan is inserted. -/
theorem scanner_candidate_validation_witness :
    scanLocatorStep memZero cfgSmall 0 0 [] 20 = [] ∧
    scanLocatorStep memW2 cfgSmall 0 0 [] 20 = [] ∧
    scanMetaStep memZero cfgSmall 0 0 [] 0 = [] ∧
    scanMetaStep memScan cfgSmall 0 0x200 [] 0x220 =
      (if read32 memScan (0x200 + 4) = 0 then
         pushFront [] (0 + read32 memScan (0x200 + 12)) (0x220 + 8)
       else pushBack [] (0 + read32 memScan (0x200 + 12)) (0x220 + 8)) :=
  ⟨scanner_candidate_validation.1 memZero cfgSmall 0 0 [] 20 (by decide),
   scanner_candidate_validation.2.1 memW2 cfgSmall 0 0 [] 20 (by decide),
   scanner_candidate_validation.2.2.1 memZero cfgSmall 0 0 [] 0 (by decide),
   scanner_candidate_validation.2.2.2 memScan cfgSmall 0 0x200 [] 0x220
     (by decide) (by decide)⟩

/-- C3: GetParentVtbl, for a table whose preceding word points at a locator
with non-null hierarchy descriptor, returns the front table of the first base
class (walking from index 1, skipping only the self entry) whose mdisp equals
the locator's own offset and whose type descriptor is a key of the map, and
none when no base class satisfies both conditions: it equals the
find-first-then-front specification `parentVtblSpec`. -/
theorem parent_vtbl_first_matching_base (m : MemImg) (vm : VtblMap)
    (base vtbl : Nat)
    (h : read32 m (read64 m (sub64 vtbl 8) + 16) ≠ 0) :
    GetParentVtbl m vm base vtbl = parentVtblSpec m vm base vtbl := by
  unfold GetParentVtbl parentVtblSpec
  rw [if_pos h]
  exact searchBasesAux_eq_find m vm base _ _ _ 1

/-- Witness: on memC3 the first base entry with matching mdisp is skipped
because its type is not a key of the map, and the second one's primary table
0x999 is returned, matching the specification function. -/
theorem parent_vtbl_first_matching_base_witness :
    GetParentVtbl memC3 vmC3 0 0x300 = parentVtblSpec memC3 vmC3 0 0x300 ∧
    GetParentVtbl memC3 vmC3 0 0x300 = some 0x999 :=
  ⟨parent_vtbl_first_matching_base memC3 vmC3 0 0x300 (by decide), by decide⟩

/-- C6 counterexample: after the recognised opening 32 C0, a return-and-pop
of N = 20 bytes (a 4-byte multiple) yields the count shorthand "UInt32 * 5",
not a list of N/4 generically named 32-bit parameters; and N = 6 (not a
4-byte multiple) yields "UInt32 * 1" (the truncated count N/4), not a raw
byte count. -/
theorem retn_pop_params_counterexample :
    (SimpleFunctionDecompiler memC6a cfgSmall 0 0x40 "????  " "????" "").2.1
        = "UInt32 * 5" ∧
    "UInt32 * 5" ≠ "UInt32 arg1, UInt32 arg2, UInt32 arg3, UInt32 arg4, UInt32 arg5" ∧
    (SimpleFunctionDecompiler memC6b cfgSmall 0 0x40 "????  " "????" "").2.1
        = "UInt32 * 1" ∧
    "UInt32 * 1" ≠ "6" := by
  refine ⟨by decide, by decide, by decide, by decide⟩

/-- C6 amended: when the byte after the recognised opening is the
return-and-pop opcode 0xC2 with immediate N, the synthesised parameter list
is "void" for N = 0, the explicitly named list of N/4 32-bit parameters for
N in 4, 8, 12, 16, and the count shorthand "UInt32 * floor(N/4)" for every
other N, whether or not N is a 4-byte multiple. -/
theorem retn_pop_params_amended (m : MemImg) (cfg : Config)
    (base funcAddr : Nat) (r p b : String)
    (h : read8 m (funcAddr + (decodeOpening m cfg base funcAddr).size) = 0xC2) :
    (SimpleFunctionDecompiler m cfg base funcAddr r p b).2.1 =
      (if read16 m (funcAddr + (decodeOpening m cfg base funcAddr).size + 1) = 0
         then "void"
       else if read16 m (funcAddr + (decodeOpening m cfg base funcAddr).size + 1) = 4
         then "UInt32 arg"
       else if read16 m (funcAddr + (decodeOpening m cfg base funcAddr).size + 1) = 8
         then "UInt32 arg1, UInt32 arg2"
       else if read16 m (funcAddr + (decodeOpening m cfg base funcAddr).size + 1) = 12
         then "UInt32 arg1, UInt32 arg2, UInt32 arg3"
       else if read16 m (funcAddr + (decodeOpening m cfg base funcAddr).size + 1) = 16
         then "UInt32 arg1, UInt32 arg2, UInt32 arg3, UInt32 arg4"
       else "UInt32 * "
         ++ toString (read16 m (funcAddr + (decodeOpening m cfg base funcAddr).size + 1) / 4)) := by
  have hc3 : read8 m (funcAddr + (decodeOpening m cfg base funcAddr).size) ≠ 0xC3 := by
    rw [h]; decide
  unfold SimpleFunctionDecompiler paramsForRet
  simp only [hc3, if_neg, h, if_pos, if_true, ite_false, ite_true]
  by_cases hz : (decodeOpening m cfg base funcAddr).size = 0 <;> simp [hz, hc3, h]

/-- Witness for the amended parameter-list theorem at N = 20. -/
theorem retn_pop_params_amended_witness :
    (SimpleFunctionDecompiler memC6a cfgSmall 0 0x40 "????  " "????" "").2.1
      = "UInt32 * 5" := by
  have h := retn_pop_params_amended memC6a cfgSmall 0 0x40 "????  " "????" ""
    (by decide)
  rw [h]; decide

/-- C7: when the byte immediately after the recognised opening is neither a
bare return 0xC3 nor a return-and-pop 0xC2, SimpleFunctionDecompiler yields
nothing: the three output strings are exactly the caller's inputs. -/
theorem decompiler_unrecognized_second_instruction (m : MemImg) (cfg : Config)
    (base funcAddr : Nat) (r p b : String)
    (h1 : read8 m (funcAddr + (decodeOpening m cfg base funcAddr).size) ≠ 0xC3)
    (h2 : read8 m (funcAddr + (decodeOpening m cfg base funcAddr).size) ≠ 0xC2) :
    SimpleFunctionDecompiler m cfg base funcAddr r p b = (r, p, b) := by
  have hp : paramsForRet m (funcAddr + (decodeOpening m cfg base funcAddr).size) = none := by
    unfold paramsForRet
    simp [h1, h2]
  unfold SimpleFunctionDecompiler
  simp [hp]

/-- Witness: bytes 32 C0 90 leave the printer placeholders untouched. -/
theorem decompiler_unrecognized_second_instruction_witness :
    SimpleFunctionDecompiler memC7 cfgSmall 0 0x40 "????  " "????" ""
      = ("????  ", "????", "") :=
  decompiler_unrecognized_second_instruction memC7 cfgSmall 0 0x40
    "????  " "????" "" (by decide) (by decide)

/-- C8: the three concrete byte sequences B0 01 C3, 32 C0 C3 and 48 8B C1 C3
decompile to a bool returning true, a bool returning false, and a pointer
returning the object's own pointer, each with the empty (void) parameter
list. -/
theorem decompiler_three_byte_sequences :
    SimpleFunctionDecompiler memDecA cfgSmall 0 0x40 "????  " "????" ""
        = ("bool  ", "void", "\x7b return true; \x7d") ∧
    SimpleFunctionDecompiler memDecB cfgSmall 0 0x40 "????  " "????" ""
        = ("bool  ", "void", "\x7b return false; \x7d") ∧
    SimpleFunctionDecompiler memDecC cfgSmall 0 0x40 "????  " "????" ""
        = ("void *", "void", "\x7b return this; \x7d") := by
  refine ⟨by decide, by decide, by decide⟩

lemma findVtbl_mapUpsert (key key2 : Nat) (f : List Nat → List Nat) :
    ∀ vm : VtblMap, findVtbl (mapUpsert vm key f) key2 =
      if key = key2 then some (f ((findVtbl vm key2).getD []))
      else findVtbl vm key2 := by
  intro vm
  induction vm with
  | nil => by_cases h : key = key2 <;> simp [mapUpsert, findVtbl, h]
  | cons kv rest ih =>
      obtain ⟨k, l⟩ := kv
      by_cases hk : k = key
      · subst hk
        by_cases h2 : k = key2
        · subst h2; simp [mapUpsert, findVtbl]
        · have hne : ¬ k = key2 := h2
          simp [mapUpsert, findVtbl, hne]
      · by_cases h2 : k = key2
        · subst h2
          have hne : ¬ key = k := fun hx => hk hx.symm
          simp [mapUpsert, findVtbl, hk, hne]
        · simp [mapUpsert, findVtbl, hk, h2, ih]

lemma findVtbl_applyEvent (vm : VtblMap) (e : ScanEvent) (key : Nat) :
    findVtbl (applyEvent vm e) key =
      if e.key = key then some (listStep (findVtbl vm key) e)
      else findVtbl vm key := by
  unfold applyEvent listStep pushFront pushBack
  by_cases ho : e.offset = 0 <;>
    simp [ho, findVtbl_mapUpsert]

lemma findVtbl_applyEvents (key : Nat) :
    ∀ (es : List ScanEvent) (vm : VtblMap),
      findVtbl (applyEvents vm es) key =
        (eventsForKey key es).foldl (fun o e => some (listStep o e))
          (findVtbl vm key) := by
  intro es
  induction es with
  | nil => intro vm; rfl
  | cons e es ih =>
      intro vm
      have hstep : applyEvents vm (e :: es) = applyEvents (applyEvent vm e) es := rfl
      rw [hstep, ih]
      by_cases hk : e.key = key
      · have : (e.key == key) = true := by simp [hk]
        simp [eventsForKey, List.filter_cons, this, findVtbl_applyEvent, hk]
      · have : (e.key == key) = false := by simp [hk]
        simp [eventsForKey, List.filter_cons, this, findVtbl_applyEvent, hk]

lemma foldl_listStep_some :
    ∀ (es : List ScanEvent) (L : List Nat),
      es.foldl (fun o e => some (listStep o e)) (some L) =
        some ((primaryVtbls es).reverse ++ L ++ secondaryVtbls es) := by
  intro es
  induction es with
  | nil => intro L; simp [primaryVtbls, secondaryVtbls]
  | cons e es ih =>
      intro L
      rw [List.foldl_cons]
      have hstep : listStep (some L) e =
          if e.offset = 0 then e.vtbl :: L else L ++ [e.vtbl] := by
        simp [listStep]
      by_cases ho : e.offset = 0
      · rw [hstep, if_pos ho, ih]
        have hb : (e.offset == 0) = true := by simp [ho]
        simp [primaryVtbls, secondaryVtbls, List.filter_cons, hb]
      · rw [hstep, if_neg ho, ih]
        have hb : (e.offset == 0) = false := by simp [ho]
        simp [primaryVtbls, secondaryVtbls, List.filter_cons, hb]

lemma foldl_listStep_none (e : ScanEvent) (es : List ScanEvent) :
    (e :: es).foldl (fun o e => some (listStep o e)) none =
      some ((primaryVtbls (e :: es)).reverse ++ secondaryVtbls (e :: es)) := by
  have h1 : listStep none e = [e.vtbl] := by
    unfold listStep; split <;> rfl
  rw [List.foldl_cons, h1, foldl_listStep_some]
  by_cases ho : e.offset = 0
  · have hb : (e.offset == 0) = true := by simp [ho]
    simp [primaryVtbls, secondaryVtbls, List.filter_cons, hb]
  · have hb : (e.offset == 0) = false := by simp [ho]
    simp [primaryVtbls, secondaryVtbls, List.filter_cons, hb]

lemma foldl_eq_applyEvents (f : VtblMap → Nat → VtblMap)
    (g : Nat → List ScanEvent)
    (h : ∀ vm x, f vm x = applyEvents vm (g x)) :
    ∀ (xs : List Nat) (vm : VtblMap),
      xs.foldl f vm = applyEvents vm (xs.flatMap g) := by
  intro xs
  induction xs with
  | nil => intro vm; rfl
  | cons x xs ih =>
      intro vm
      rw [List.foldl_cons, List.flatMap_cons, h, ih]
      unfold applyEvents
      rw [List.foldl_append]

lemma scanMetaStep_eq_events (m : MemImg) (cfg : Config) (base pCol : Nat)
    (vm : VtblMap) (k : Nat) :
    scanMetaStep m cfg base pCol vm k = applyEvents vm (metaEventsAt m cfg base pCol k) := by
  unfold scanMetaStep metaEventsAt
  by_cases h1 : read64 m k = pCol
  · rw [if_pos h1, if_pos h1]
    by_cases h2 : inText cfg base (read64 m (k + 8))
    · rw [if_pos h2, if_pos h2]
      rfl
    · rw [if_neg h2, if_neg h2]
      rfl
  · rw [if_neg h1, if_neg h1]
    rfl

lemma scanLocatorStep_eq_events (m : MemImg) (cfg : Config) (base tdOff : Nat)
    (vm : VtblMap) (j : Nat) :
    scanLocatorStep m cfg base tdOff vm j =
      applyEvents vm (locatorEventsAt m cfg base tdOff j) := by
  unfold scanLocatorStep locatorEventsAt
  by_cases h1 : read32 m j = tdOff
  · by_cases h2 : read32 m (sub64 j 12) ≠ COL_SIG_REV1
    · simp [h1, h2, applyEvents]
    · by_cases h3 : read32 m (sub64 j 12 + 8) ≠ 0
      · simp [h1, h2, h3, applyEvents]
      · simp only [h1, h2, h3, if_pos, if_neg, if_true, if_false, ite_true, ite_false]
        exact foldl_eq_applyEvents _ _ (scanMetaStep_eq_events m cfg base _) _ vm
  · simp [h1, applyEvents]

lemma scanTypeStep_eq_events (m : MemImg) (cfg : Config) (base : Nat)
    (vm : VtblMap) (i : Nat) :
    scanTypeStep m cfg base vm i = applyEvents vm (typeEventsAt m cfg base i) := by
  unfold scanTypeStep typeEventsAt
  by_cases h1 : read64 m i = base + cfg.typeInfoVtbl
  · simp only [h1, if_pos, if_true]
    exact foldl_eq_applyEvents _ _ (scanLocatorStep_eq_events m cfg base _) _ vm
  · simp [h1, applyEvents]

lemma LoadVTables_eq_events (m : MemImg) (cfg : Config) (base : Nat) :
    LoadVTables m cfg base = applyEvents [] (scanEvents m cfg base) := by
  unfold LoadVTables scanEvents
  exact foldl_eq_applyEvents _ _ (scanTypeStep_eq_events m cfg base) _ []

lemma findVtbl_LoadVTables (m : MemImg) (cfg : Config) (base key : Nat) :
    findVtbl (LoadVTables m cfg base) key =
      (if (eventsForKey key (scanEvents m cfg base)).isEmpty then none
       else some ((primaryVtbls (eventsForKey key (scanEvents m cfg base))).reverse
                  ++ secondaryVtbls (eventsForKey key (scanEvents m cfg base)))) := by
  rw [LoadVTables_eq_events, findVtbl_applyEvents]
  have h0 : findVtbl [] key = none := rfl
  rw [h0]
  cases hes : eventsForKey key (scanEvents m cfg base) with
  | nil => simp
  | cons e es => rw [foldl_listStep_none]; simp

lemma metaEventsAt_inText (m : MemImg) (cfg : Config) (base pCol k : Nat)
    (e : ScanEvent) (he : e ∈ metaEventsAt m cfg base pCol k) :
    inText cfg base (read64 m e.vtbl) := by
  unfold metaEventsAt at he
  by_cases h1 : read64 m k = pCol
  · rw [if_pos h1] at he
    by_cases h2 : inText cfg base (read64 m (k + 8))
    · rw [if_pos h2] at he
      rw [List.mem_singleton] at he
      rw [he]
      exact h2
    · rw [if_neg h2] at he
      exact absurd he (List.not_mem_nil e)
  · rw [if_neg h1] at he
    exact absurd he (List.not_mem_nil e)

lemma scanEvents_inText (m : MemImg) (cfg : Config) (base : Nat)
    (e : ScanEvent) (he : e ∈ scanEvents m cfg base) :
    inText cfg base (read64 m e.vtbl) := by
  unfold scanEvents at he
  rw [List.mem_flatMap] at he
  obtain ⟨i, _, hi⟩ := he
  unfold typeEventsAt at hi
  by_cases h1 : read64 m i = base + cfg.typeInfoVtbl
  · rw [if_pos h1, List.mem_flatMap] at hi
    obtain ⟨j, _, hj⟩ := hi
    unfold locatorEventsAt at hj
    by_cases h2 : read32 m j = ((i - base) % 4294967296)
    · rw [if_pos h2] at hj
      by_cases h3 : read32 m (sub64 j 12) ≠ COL_SIG_REV1
      · rw [if_pos h3] at hj
        exact absurd hj (List.not_mem_nil e)
      · rw [if_neg h3] at hj
        by_cases h4 : read32 m (sub64 j 12 + 8) ≠ 0
        · rw [if_pos h4] at hj
          exact absurd hj (List.not_mem_nil e)
        · rw [if_neg h4] at hj
          rw [List.mem_flatMap] at hj
          obtain ⟨k, _, hk⟩ := hj
          exact metaEventsAt_inText m cfg base _ k e hk
    · rw [if_neg h2] at hj
      exact absurd hj (List.not_mem_nil e)
  · rw [if_neg h1] at hi
    exact absurd hi (List.not_mem_nil e)

/-- C2: the scanner inserts each accepted table at the front of its type's
list when the locator offset is 0 and at the back otherwise, so the final
list of every key is exactly the reversed sequence of its offset-0
discoveries followed by the sequence of its nonzero-offset discoveries: every
primary table precedes every secondary table. -/
theorem scanner_primary_first (m : MemImg) (cfg : Config) (base key : Nat) :
    findVtbl (LoadVTables m cfg base) key =
      (if (eventsForKey key (scanEvents m cfg base)).isEmpty then none
       else some ((primaryVtbls (eventsForKey key (scanEvents m cfg base))).reverse
                  ++ secondaryVtbls (eventsForKey key (scanEvents m cfg base)))) :=
  findVtbl_LoadVTables m cfg base key

/-- C10: every key of the map built by LoadVTables owns a non-empty list (a
key is created only when a validated table is inserted), the front used by
PrintVirtuals and GetParentVtbl is a member of the list, and the first slot
of every recorded table is inside the code region, which is exactly the entry
condition of the slot loop of PrintVirtuals at index 0. -/
theorem vtbl_map_wellformed (m : MemImg) (cfg : Config) (base key : Nat)
    (l : List Nat) (h : findVtbl (LoadVTables m cfg base) key = some l) :
    l ≠ [] ∧ l.headD 0 ∈ l ∧ ∀ v ∈ l, inText cfg base (read64 m v) := by
  rw [findVtbl_LoadVTables] at h
  by_cases he : (eventsForKey key (scanEvents m cfg base)).isEmpty
  · rw [if_pos he] at h
    cases h
  · rw [if_neg he] at h
    have hl : l = (primaryVtbls (eventsForKey key (scanEvents m cfg base))).reverse
        ++ secondaryVtbls (eventsForKey key (scanEvents m cfg base)) := by
      injection h with h
      exact h.symm
    have hmem : ∀ v ∈ l, ∃ e ∈ scanEvents m cfg base, ScanEvent.vtbl e = v := by
      intro v hv
      rw [hl, List.mem_append, List.mem_reverse] at hv
      cases hv with
      | inl h1 =>
          unfold primaryVtbls at h1
          rw [List.mem_map] at h1
          obtain ⟨e, he1, he2⟩ := h1
          exact ⟨e, List.mem_of_mem_filter (List.mem_of_mem_filter he1), he2⟩
      | inr h1 =>
          unfold secondaryVtbls at h1
          rw [List.mem_map] at h1
          obtain ⟨e, he1, he2⟩ := h1
          exact ⟨e, List.mem_of_mem_filter (List.mem_of_mem_filter he1), he2⟩
    have hnonempty : l ≠ [] := by
      intro hnil
      apply he
      cases hcase : eventsForKey key (scanEvents m cfg base) with
      | nil => simp [hcase]
      | cons e es =>
          exfalso
          rw [hl, hcase] at hnil
          rw [List.append_eq_nil] at hnil
          obtain ⟨h1, h2⟩ := hnil
          rw [List.reverse_eq_nil_iff] at h1
          by_cases ho : e.offset == 0
          · have : e.vtbl ∈ primaryVtbls (e :: es) := by
              simp [primaryVtbls, List.filter_cons, ho]
            rw [h1] at this
            exact List.not_mem_nil _ this
          · have hb : (e.offset == 0) = false := by
              simp only [Bool.not_eq_true] at ho; exact ho
            have : e.vtbl ∈ secondaryVtbls (e :: es) := by
              simp [secondaryVtbls, List.filter_cons, hb]
            rw [h2] at this
            exact List.not_mem_nil _ this
    refine ⟨hnonempty, ?_, ?_⟩
    · cases l with
      | nil => exact absurd rfl hnonempty
      | cons a t => exact List.mem_cons_self a t
    · intro v hv
      obtain ⟨e, heS, hev⟩ := hmem v hv
      rw [← hev]
      exact scanEvents_inText m cfg base e heS

/-- Witness: on memScan the scan records exactly one table, 0x228, under the
key 0x100; the recorded list is non-empty, its front is a member, and the
first slot 0x20 of the table is inside the code region. -/
theorem vtbl_map_wellformed_witness :
    ([0x228] : List Nat) ≠ [] ∧ List.headD ([0x228] : List Nat) 0 ∈ ([0x228] : List Nat) ∧
    ∀ v ∈ ([0x228] : List Nat), inText cfgSmall 0 (read64 memScan v) :=
  vtbl_map_wellformed memScan cfgSmall 0 0x100 [0x228] (by decide)

lemma printSlots_stop (m : MemImg) (cfg : Config) (base vtbl fuel i : Nat)
    (par : Option Nat) (bO bA : Bool)
    (h : ¬ inText cfg base (read64 m (vtbl + 8 * i))) :
    printSlots m cfg base vtbl (fuel + 1) i par bO bA = [] := by
  simp only [printSlots]
  rw [if_neg h]

lemma printSlots_equal_step (m : MemImg) (cfg : Config) (base vtbl fuel i p : Nat)
    (bO bA : Bool)
    (h1 : inText cfg base (read64 m (vtbl + 8 * i)))
    (h2 : inText cfg base (read64 m (p + 8 * i)))
    (h3 : read64 m (vtbl + 8 * i) = read64 m (p + 8 * i)) :
    printSlots m cfg base vtbl (fuel + 1) i (some p) bO bA
      = printSlots m cfg base vtbl fuel (i + 1) (some p) bO bA := by
  simp only [printSlots]
  rw [if_pos h1, if_pos h2, if_pos h3]

lemma printSlots_differ_step (m : MemImg) (cfg : Config) (base vtbl fuel i p : Nat)
    (bO bA : Bool)
    (h1 : inText cfg base (read64 m (vtbl + 8 * i)))
    (h2 : inText cfg base (read64 m (p + 8 * i)))
    (h3 : read64 m (vtbl + 8 * i) ≠ read64 m (p + 8 * i)) :
    printSlots m cfg base vtbl (fuel + 1) i (some p) bO bA
      = slotOutput m cfg base vtbl i (some p) bO bA
        ++ printSlots m cfg base vtbl fuel (i + 1) (some p) true bA := by
  simp only [printSlots]
  rw [if_pos h1, if_pos h2, if_neg h3]

lemma printSlots_exhaust_step (m : MemImg) (cfg : Config) (base vtbl fuel i p : Nat)
    (bO bA : Bool)
    (h1 : inText cfg base (read64 m (vtbl + 8 * i)))
    (h2 : ¬ inText cfg base (read64 m (p + 8 * i))) :
    printSlots m cfg base vtbl (fuel + 1) i (some p) bO bA
      = slotOutput m cfg base vtbl i none bO bA
        ++ printSlots m cfg base vtbl fuel (i + 1) none bO true := by
  simp only [printSlots]
  rw [if_pos h1, if_neg h2]

lemma printSlots_none_step (m : MemImg) (cfg : Config) (base vtbl fuel i : Nat)
    (bO bA : Bool)
    (h1 : inText cfg base (read64 m (vtbl + 8 * i))) :
    printSlots m cfg base vtbl (fuel + 1) i none bO bA
      = slotOutput m cfg base vtbl i none bO bA
        ++ printSlots m cfg base vtbl fuel (i + 1) none bO true := by
  simp only [printSlots]
  rw [if_pos h1]

lemma countOA_append (a b : List OutLine) :
    countOA (a ++ b) = countOA a + countOA b := by
  simp [countOA, List.countP_append]

lemma countAA_append (a b : List OutLine) :
    countAA (a ++ b) = countAA a + countAA b := by
  simp [countAA, List.countP_append]

lemma countOA_slotOutput (m : MemImg) (cfg : Config) (base vtbl i : Nat)
    (par : Option Nat) (bO bA : Bool) :
    countOA (slotOutput m cfg base vtbl i par bO bA)
      = if par.isSome && !bO then 1 else 0 := by
  cases par <;> cases bO <;> cases bA <;> by_cases hi : 0 < i <;>
    simp [slotOutput, countOA, hi, List.countP_cons]

lemma countAA_slotOutput (m : MemImg) (cfg : Config) (base vtbl i : Nat)
    (par : Option Nat) (bO bA : Bool) :
    countAA (slotOutput m cfg base vtbl i par bO bA)
      = if par.isNone && !bA && decide (0 < i) then 1 else 0 := by
  cases par <;> cases bO <;> cases bA <;> by_cases hi : 0 < i <;>
    simp [slotOutput, countAA, hi, List.countP_cons]

lemma countOA_printSlots_bO_true (m : MemImg) (cfg : Config) (base vtbl : Nat) :
    ∀ (fuel i : Nat) (par : Option Nat) (bA : Bool),
      countOA (printSlots m cfg base vtbl fuel i par true bA) = 0 := by
  intro fuel
  induction fuel with
  | zero => intro i par bA; simp [printSlots, countOA]
  | succ fuel ih =>
      intro i par bA
      by_cases hv : inText cfg base (read64 m (vtbl + 8 * i))
      · cases par with
        | some p =>
            by_cases hp : inText cfg base (read64 m (p + 8 * i))
            · by_cases heq : read64 m (vtbl + 8 * i) = read64 m (p + 8 * i)
              · rw [printSlots_equal_step m cfg base vtbl fuel i p true bA hv hp heq]
                exact ih (i + 1) (some p) bA
              · rw [printSlots_differ_step m cfg base vtbl fuel i p true bA hv hp heq,
                    countOA_append, countOA_slotOutput, ih (i + 1) (some p) bA]
                simp
            · rw [printSlots_exhaust_step m cfg base vtbl fuel i p true bA hv hp,
                  countOA_append, countOA_slotOutput, ih (i + 1) none true]
              simp
        | none =>
            rw [printSlots_none_step m cfg base vtbl fuel i true bA hv,
                countOA_append, countOA_slotOutput, ih (i + 1) none true]
            simp
      · rw [printSlots_stop m cfg base vtbl fuel i par true bA hv]
        simp [countOA]

lemma countAA_printSlots_bA_true (m : MemImg) (cfg : Config) (base vtbl : Nat) :
    ∀ (fuel i : Nat) (par : Option Nat) (bO : Bool),
      countAA (printSlots m cfg base vtbl fuel i par bO true) = 0 := by
  intro fuel
  induction fuel with
  | zero => intro i par bO; simp [printSlots, countAA]
  | succ fuel ih =>
      intro i par bO
      by_cases hv : inText cfg base (read64 m (vtbl + 8 * i))
      · cases par with
        | some p =>
            by_cases hp : inText cfg base (read64 m (p + 8 * i))
            · by_cases heq : read64 m (vtbl + 8 * i) = read64 m (p + 8 * i)
              · rw [printSlots_equal_step m cfg base vtbl fuel i p bO true hv hp heq]
                exact ih (i + 1) (some p) bO
              · rw [printSlots_differ_step m cfg base vtbl fuel i p bO true hv hp heq,
                    countAA_append, countAA_slotOutput, ih (i + 1) (some p) true]
                simp
            · rw [printSlots_exhaust_step m cfg base vtbl fuel i p bO true hv hp,
                  countAA_append, countAA_slotOutput, ih (i + 1) none bO]
              simp
        | none =>
            rw [printSlots_none_step m cfg base vtbl fuel i bO true hv,
                countAA_append, countAA_slotOutput, ih (i + 1) none bO]
            simp
      · rw [printSlots_stop m cfg base vtbl fuel i par bO true hv]
        simp [countAA]

lemma countOA_printSlots_le_one (m : MemImg) (cfg : Config) (base vtbl : Nat) :
    ∀ (fuel i : Nat) (par : Option Nat) (bO bA : Bool),
      countOA (printSlots m cfg base vtbl fuel i par bO bA) ≤ 1 := by
  intro fuel
  induction fuel with
  | zero => intro i par bO bA; simp [printSlots, countOA]
  | succ fuel ih =>
      intro i par bO bA
      cases bO with
      | true =>
          rw [countOA_printSlots_bO_true]
          omega
      | false =>
          by_cases hv : inText cfg base (read64 m (vtbl + 8 * i))
          · cases par with
            | some p =>
                by_cases hp : inText cfg base (read64 m (p + 8 * i))
                · by_cases heq : read64 m (vtbl + 8 * i) = read64 m (p + 8 * i)
                  · rw [printSlots_equal_step m cfg base vtbl fuel i p false bA hv hp heq]
                    exact ih (i + 1) (some p) false bA
                  · rw [printSlots_differ_step m cfg base vtbl fuel i p false bA hv hp heq,
                        countOA_append, countOA_slotOutput,
                        countOA_printSlots_bO_true]
                    simp
                · rw [printSlots_exhaust_step m cfg base vtbl fuel i p false bA hv hp,
                      countOA_append, countOA_slotOutput]
                  have := ih (i + 1) none false true
                  simp
                  omega
            | none =>
                rw [printSlots_none_step m cfg base vtbl fuel i false bA hv,
                    countOA_append, countOA_slotOutput]
                have := ih (i + 1) none false true
                simp
                omega
          · rw [printSlots_stop m cfg base vtbl fuel i par false bA hv]
            simp [countOA]

lemma countAA_printSlots_le_one (m : MemImg) (cfg : Config) (base vtbl : Nat) :
    ∀ (fuel i : Nat) (par : Option Nat) (bO bA : Bool),
      countAA (printSlots m cfg base vtbl fuel i par bO bA) ≤ 1 := by
  intro fuel
  induction fuel with
  | zero => intro i par bO bA; simp [printSlots, countAA]
  | succ fuel ih =>
      intro i par bO bA
      cases bA with
      | true =>
          rw [countAA_printSlots_bA_true]
          omega
      | false =>
          by_cases hv : inText cfg base (read64 m (vtbl + 8 * i))
          · cases par with
            | some p =>
                by_cases hp : inText cfg base (read64 m (p + 8 * i))
                · by_cases heq : read64 m (vtbl + 8 * i) = read64 m (p + 8 * i)
                  · rw [printSlots_equal_step m cfg base vtbl fuel i p bO false hv hp heq]
                    exact ih (i + 1) (some p) bO false
                  · rw [printSlots_differ_step m cfg base vtbl fuel i p bO false hv hp heq,
                        countAA_append, countAA_slotOutput]
                    have := ih (i + 1) (some p) true false
                    simp
                    omega
                · rw [printSlots_exhaust_step m cfg base vtbl fuel i p bO false hv hp,
                      countAA_append, countAA_slotOutput,
                      countAA_printSlots_bA_true]
                  split <;> omega
            | none =>
                rw [printSlots_none_step m cfg base vtbl fuel i bO false hv,
                    countAA_append, countAA_slotOutput,
                    countAA_printSlots_bA_true]
                split <;> omega
          · rw [printSlots_stop m cfg base vtbl fuel i par bO false hv]
            simp [countAA]

lemma printSlots_skip (m : MemImg) (cfg : Config) (base vtbl p : Nat)
    (bO bA : Bool) :
    ∀ (d fuel i : Nat),
      (∀ j, i ≤ j → j < i + d →
        inText cfg base (read64 m (vtbl + 8 * j)) ∧
        read64 m (vtbl + 8 * j) = read64 m (p + 8 * j)) →
      printSlots m cfg base vtbl (d + fuel) i (some p) bO bA
        = printSlots m cfg base vtbl fuel (i + d) (some p) bO bA := by
  intro d
  induction d with
  | zero => intro fuel i _; simp
  | succ d ih =>
      intro fuel i h
      have hj := h i (le_refl i) (by omega)
      have h2 : inText cfg base (read64 m (p + 8 * i)) := hj.2 ▸ hj.1
      have heq : d + 1 + fuel = (d + fuel) + 1 := by omega
      rw [heq, printSlots_equal_step m cfg base vtbl (d + fuel) i p bO bA hj.1 h2 hj.2]
      have h' : ∀ j, i + 1 ≤ j → j < (i + 1) + d →
          inText cfg base (read64 m (vtbl + 8 * j)) ∧
          read64 m (vtbl + 8 * j) = read64 m (p + 8 * j) := by
        intro j hj1 hj2
        exact h j (by omega) (by omega)
      rw [ih fuel (i + 1) h']
      congr 1
      omega

lemma printSlots_none_all_additions (m : MemImg) (cfg : Config) (base vtbl : Nat) :
    ∀ (fuel i : Nat) (bO bA : Bool) (l : OutLine),
      l ∈ printSlots m cfg base vtbl fuel i none bO bA →
      isOverrideAnnLine l = false ∧ isOverrideSlot l = false := by
  intro fuel
  induction fuel with
  | zero => intro i bO bA l hl; simp [printSlots] at hl
  | succ fuel ih =>
      intro i bO bA l hl
      by_cases hv : inText cfg base (read64 m (vtbl + 8 * i))
      · rw [printSlots_none_step m cfg base vtbl fuel i bO bA hv,
            List.mem_append] at hl
        cases hl with
        | inl h1 =>
            simp only [slotOutput] at h1
            rw [List.mem_append] at h1
            cases h1 with
            | inl h2 =>
                cases bA with
                | true => simp at h2
                | false =>
                    by_cases hi : 0 < i
                    · simp [hi] at h2
                      rw [h2]
                      exact ⟨rfl, rfl⟩
                    · simp [hi] at h2
            | inr h2 =>
                rw [List.mem_singleton] at h2
                rw [h2]
                exact ⟨rfl, rfl⟩
        | inr h1 => exact ih (i + 1) bO true l h1
      · rw [printSlots_stop m cfg base vtbl fuel i none bO bA hv] at hl
        simp at hl

/-- C4: in the per-table loop of PrintVirtuals, while the parent table still
has an in-code-region entry at the current index, a child slot equal to the
parent's same-index value produces no output (the iteration reduces to the
next one); a differing child slot is rendered with the override qualifier,
preceded by the override annotation exactly when the once-per-table flag is
still clear; the override annotation appears at most once in any run; and a
full table run whose first difference against the parent is at slot i prints
the annotation exactly there, exactly once. -/
theorem print_virtuals_override_behavior :
    (∀ (m : MemImg) (cfg : Config) (base vtbl fuel i p : Nat) (bO bA : Bool),
        inText cfg base (read64 m (vtbl + 8 * i)) →
        inText cfg base (read64 m (p + 8 * i)) →
        read64 m (vtbl + 8 * i) = read64 m (p + 8 * i) →
        printSlots m cfg base vtbl (fuel + 1) i (some p) bO bA
          = printSlots m cfg base vtbl fuel (i + 1) (some p) bO bA) ∧
    (∀ (m : MemImg) (cfg : Config) (base vtbl fuel i p : Nat) (bO bA : Bool),
        inText cfg base (read64 m (vtbl + 8 * i)) →
        inText cfg base (read64 m (p + 8 * i)) →
        read64 m (vtbl + 8 * i) ≠ read64 m (p + 8 * i) →
        printSlots m cfg base vtbl (fuel + 1) i (some p) bO bA
          = (if bO then []
             else [OutLine.overrideAnn (GetObjectClassName m cfg base p) vtbl])
            ++ OutLine.slot i true (read64 m (vtbl + 8 * i))
                 (slotStrings m cfg base (read64 m (vtbl + 8 * i))).1
                 (slotStrings m cfg base (read64 m (vtbl + 8 * i))).2.1
                 (slotStrings m cfg base (read64 m (vtbl + 8 * i))).2.2
            :: printSlots m cfg base vtbl fuel (i + 1) (some p) true bA) ∧
    (∀ (m : MemImg) (cfg : Config) (base vtbl fuel i : Nat) (par : Option Nat)
        (bO bA : Bool),
        countOA (printSlots m cfg base vtbl fuel i par bO bA) ≤ 1) ∧
    (∀ (m : MemImg) (cfg : Config) (base : Nat) (vm : VtblMap)
        (vtbl fuel i p : Nat),
        GetParentVtbl m vm base vtbl = some p →
        (∀ j, j < i → inText cfg base (read64 m (vtbl + 8 * j)) ∧
            read64 m (vtbl + 8 * j) = read64 m (p + 8 * j)) →
        inText cfg base (read64 m (vtbl + 8 * i)) →
        inText cfg base (read64 m (p + 8 * i)) →
        read64 m (vtbl + 8 * i) ≠ read64 m (p + 8 * i) →
        i < fuel →
        ∃ rest, printVirtualsTable m cfg base vm fuel vtbl
            = OutLine.overrideAnn (GetObjectClassName m cfg base p) vtbl
              :: OutLine.slot i true (read64 m (vtbl + 8 * i))
                   (slotStrings m cfg base (read64 m (vtbl + 8 * i))).1
                   (slotStrings m cfg base (read64 m (vtbl + 8 * i))).2.1
                   (slotStrings m cfg base (read64 m (vtbl + 8 * i))).2.2
              :: rest ∧ countOA rest = 0) := by
  refine ⟨?_, ?_, ?_, ?_⟩
  · intro m cfg base vtbl fuel i p bO bA h1 h2 h3
    exact printSlots_equal_step m cfg base vtbl fuel i p bO bA h1 h2 h3
  · intro m cfg base vtbl fuel i p bO bA h1 h2 h3
    rw [printSlots_differ_step m cfg base vtbl fuel i p bO bA h1 h2 h3]
    simp [slotOutput]
  · intro m cfg base vtbl fuel i par bO bA
    exact countOA_printSlots_le_one m cfg base vtbl fuel i par bO bA
  · intro m cfg base vm vtbl fuel i p hpar hpre h1 h2 h3 hfuel
    refine ⟨printSlots m cfg base vtbl (fuel - i - 1) (i + 1) (some p) true false,
            ?_, countOA_printSlots_bO_true m cfg base vtbl (fuel - i - 1) (i + 1) (some p) false⟩
    unfold printVirtualsTable
    rw [hpar]
    have hsplit : fuel = i + ((fuel - i - 1) + 1) := by omega
    rw [hsplit, printSlots_skip m cfg base vtbl p false false i ((fuel - i - 1) + 1) 0
          (by intro j hj1 hj2; exact hpre j (by omega))]
    rw [Nat.zero_add,
        printSlots_differ_step m cfg base vtbl (fuel - i - 1) i p false false h1 h2 h3]
    simp [slotOutput]

/-- Witness for the override behaviour: on memPrintA slot 0 is inherited and
slot 1 differs from the parent, so the table output begins with the single
override annotation followed by the overriding slot line. -/
theorem print_virtuals_override_behavior_witness :
    ∃ rest, printVirtualsTable memPrintA cfgSmall 0 vmPrint 3 0x300
        = OutLine.overrideAnn (GetObjectClassName memPrintA cfgSmall 0 0x400) 0x300
          :: OutLine.slot 1 true (read64 memPrintA (0x300 + 8 * 1))
               (slotStrings memPrintA cfgSmall 0 (read64 memPrintA (0x300 + 8 * 1))).1
               (slotStrings memPrintA cfgSmall 0 (read64 memPrintA (0x300 + 8 * 1))).2.1
               (slotStrings memPrintA cfgSmall 0 (read64 memPrintA (0x300 + 8 * 1))).2.2
          :: rest ∧ countOA rest = 0 :=
  print_virtuals_override_behavior.2.2.2 memPrintA cfgSmall 0 vmPrint 0x300 3 1 0x400
    (by decide) (by decide) (by decide) (by decide) (by decide) (by decide)

/-- C5: in the per-table loop of PrintVirtuals, once the parent table has no
in-code-region entry at the current index, the iteration renders the slot as
an addition (no override qualifier) with the add annotation exactly when the
flag is clear and the index is nonzero, and continues with the parent gone
for good; with the parent gone no line is ever an override annotation or an
override-qualified slot; the add annotation appears at most once in any run;
after it has been emitted once it never reappears; a run that begins with no
parent and a valid slot 0 never prints the add annotation at all (index-0
additions are not flagged); and a full run whose parent is exhausted first at
a nonzero slot i prints the annotation exactly there, exactly once. -/
theorem print_virtuals_addition_behavior :
    (∀ (m : MemImg) (cfg : Config) (base vtbl fuel i p : Nat) (bO bA : Bool),
        inText cfg base (read64 m (vtbl + 8 * i)) →
        ¬ inText cfg base (read64 m (p + 8 * i)) →
        printSlots m cfg base vtbl (fuel + 1) i (some p) bO bA
          = (if bA then [] else if 0 < i then [OutLine.addAnn] else [])
            ++ OutLine.slot i false (read64 m (vtbl + 8 * i))
                 (slotStrings m cfg base (read64 m (vtbl + 8 * i))).1
                 (slotStrings m cfg base (read64 m (vtbl + 8 * i))).2.1
                 (slotStrings m cfg base (read64 m (vtbl + 8 * i))).2.2
            :: printSlots m cfg base vtbl fuel (i + 1) none bO true) ∧
    (∀ (m : MemImg) (cfg : Config) (base vtbl fuel i : Nat) (bO bA : Bool)
        (l : OutLine),
        l ∈ printSlots m cfg base vtbl fuel i none bO bA →
        isOverrideAnnLine l = false ∧ isOverrideSlot l = false) ∧
    (∀ (m : MemImg) (cfg : Config) (base vtbl fuel i : Nat) (par : Option Nat)
        (bO bA : Bool),
        countAA (printSlots m cfg base vtbl fuel i par bO bA) ≤ 1) ∧
    (∀ (m : MemImg) (cfg : Config) (base vtbl fuel i : Nat) (par : Option Nat)
        (bO : Bool),
        countAA (printSlots m cfg base vtbl fuel i par bO true) = 0) ∧
    (∀ (m : MemImg) (cfg : Config) (base vtbl fuel : Nat) (bO : Bool),
        inText cfg base (read64 m (vtbl + 8 * 0)) →
        countAA (printSlots m cfg base vtbl (fuel + 1) 0 none bO false) = 0) ∧
    (∀ (m : MemImg) (cfg : Config) (base : Nat) (vm : VtblMap)
        (vtbl fuel i p : Nat),
        GetParentVtbl m vm base vtbl = some p →
        (∀ j, j < i → inText cfg base (read64 m (vtbl + 8 * j)) ∧
            read64 m (vtbl + 8 * j) = read64 m (p + 8 * j)) →
        inText cfg base (read64 m (vtbl + 8 * i)) →
        ¬ inText cfg base (read64 m (p + 8 * i)) →
        0 < i →
        i < fuel →
        ∃ rest, printVirtualsTable m cfg base vm fuel vtbl
            = OutLine.addAnn
              :: OutLine.slot i false (read64 m (vtbl + 8 * i))
                   (slotStrings m cfg base (read64 m (vtbl + 8 * i))).1
                   (slotStrings m cfg base (read64 m (vtbl + 8 * i))).2.1
                   (slotStrings m cfg base (read64 m (vtbl + 8 * i))).2.2
              :: rest ∧ countAA rest = 0) := by
  refine ⟨?_, ?_, ?_, ?_, ?_, ?_⟩
  · intro m cfg base vtbl fuel i p bO bA h1 h2
    rw [printSlots_exhaust_step m cfg base vtbl fuel i p bO bA h1 h2]
    simp [slotOutput]
  · intro m cfg base vtbl fuel i bO bA l hl
    exact printSlots_none_all_additions m cfg base vtbl fuel i bO bA l hl
  · intro m cfg base vtbl fuel i par bO bA
    exact countAA_printSlots_le_one m cfg base vtbl fuel i par bO bA
  · intro m cfg base vtbl fuel i par bO
    exact countAA_printSlots_bA_true m cfg base vtbl fuel i par bO
  · intro m cfg base vtbl fuel bO h
    rw [printSlots_none_step m cfg base vtbl fuel 0 bO false h,
        countAA_append, countAA_slotOutput, countAA_printSlots_bA_true]
    simp
  · intro m cfg base vm vtbl fuel i p hpar hpre h1 h2 hi hfuel
    refine ⟨printSlots m cfg base vtbl (fuel - i - 1) (i + 1) none false true,
            ?_, countAA_printSlots_bA_true m cfg base vtbl (fuel - i - 1) (i + 1) none false⟩
    unfold printVirtualsTable
    rw [hpar]
    have hsplit : fuel = i + ((fuel - i - 1) + 1) := by omega
    rw [hsplit, printSlots_skip m cfg base vtbl p false false i ((fuel - i - 1) + 1) 0
          (by intro j hj1 hj2; exact hpre j (by omega))]
    rw [Nat.zero_add,
        printSlots_exhaust_step m cfg base vtbl (fuel - i - 1) i p false false h1 h2]
    simp [slotOutput, hi]

/-- Witness for the addition behaviour: on memPrintB slot 0 is inherited and
the parent has no valid entry at index 1, so the table output begins with the
single add annotation followed by the added slot line. -/
theorem print_virtuals_addition_behavior_witness :
    ∃ rest, printVirtualsTable memPrintB cfgSmall 0 vmPrint 3 0x300
        = OutLine.addAnn
          :: OutLine.slot 1 false (read64 memPrintB (0x300 + 8 * 1))
               (slotStrings memPrintB cfgSmall 0 (read64 memPrintB (0x300 + 8 * 1))).1
               (slotStrings memPrintB cfgSmall 0 (read64 memPrintB (0x300 + 8 * 1))).2.1
               (slotStrings memPrintB cfgSmall 0 (read64 memPrintB (0x300 + 8 * 1))).2.2
          :: rest ∧ countAA rest = 0 :=
  print_virtuals_addition_behavior.2.2.2.2.2 memPrintB cfgSmall 0 vmPrint 0x300 3 1 0x400
    (by decide) (by decide) (by decide) (by decide) (by decide) (by decide)

lemma bars_formula (m : MemImg) (base arr n i : Nat) (depth : Nat → Nat)
    (hin : i < n)
    (hdepth : ∀ j, depth j = if j < i then cbAt m base arr j + 1 - (i - j) else 0) :
    (List.range' 1 (n - 1) 1).countP
        (fun nn => decide (0 < (if nn = i then cbAt m base arr i + 1 else depth nn)))
      = barsSpec m base arr i := by
  unfold barsSpec
  have hsplit := List.range'_append 1 i (n - 1 - i) 1
  have hn1 : (n - 1 - i) + i = n - 1 := by omega
  rw [hn1] at hsplit
  rw [← hsplit, List.countP_append]
  have hright : (List.range' (1 + 1 * i) (n - 1 - i) 1).countP
      (fun nn => decide (0 < (if nn = i then cbAt m base arr i + 1 else depth nn))) = 0 := by
    rw [List.countP_eq_zero]
    intro a ha
    rw [List.mem_range'_1] at ha
    have hai : ¬ a = i := by omega
    have hz : depth a = 0 := by rw [hdepth a, if_neg (by omega)]
    simp [hai, hz]
  rw [hright, Nat.add_zero]
  apply List.countP_congr
  intro a ha
  rw [List.mem_range'_1] at ha
  by_cases hai : a = i
  · subst hai
    simp
  · have ha2 : a < i := by omega
    rw [if_neg hai, hdepth a, if_pos ha2]
    simp only [decide_eq_true_eq]
    omega

lemma dumpRowsAux_char (m : MemImg) (cfg : Config) (base arr n : Nat) :
    ∀ (rem i : Nat) (depth : Nat → Nat),
      i + rem = n →
      (∀ j, depth j = if j < i then cbAt m base arr j + 1 - (i - j) else 0) →
      dumpRowsAux m cfg base arr n i rem depth =
        (List.range' i rem 1).map (fun k =>
          ⟨mdispAt m base arr k, barsSpec m base arr k,
           rowNameAt m cfg base arr k⟩) := by
  intro rem
  induction rem with
  | zero => intro i depth _ _; rfl
  | succ rem ih =>
      intro i depth hn hdepth
      simp only [dumpRowsAux]
      rw [List.range'_succ, List.map_cons]
      have hin : i < n := by omega
      have e1 : read32 m (base + read32 m (arr + i * 4) + 4) = cbAt m base arr i := rfl
      rw [e1, bars_formula m base arr n i depth hin hdepth]
      congr 1
      refine ih (i + 1) _ (by omega) ?_
      intro j
      by_cases hj : j = i
      · subst hj
        rw [if_pos rfl, if_pos (by omega)]
        omega
      · rw [if_neg hj, hdepth j]
        by_cases hlt : j < i
        · rw [if_pos hlt, if_pos (by omega)]
          omega
        · rw [if_neg hlt, if_neg (by omega)]

lemma dumpRows_char (m : MemImg) (cfg : Config) (base hier : Nat) :
    dumpRows m cfg base hier =
      (List.range' 0 (read32 m (hier + 8)) 1).map (fun k =>
        ⟨mdispAt m base (base + read32 m (hier + 12)) k,
         barsSpec m base (base + read32 m (hier + 12)) k,
         rowNameAt m cfg base (base + read32 m (hier + 12)) k⟩) := by
  unfold dumpRows
  apply dumpRowsAux_char m cfg base _ _ _ 0 _ (by omega)
  intro j
  rw [if_neg (by omega)]

/-- C9 counterexample: on memC9 the renderer walks the WHOLE base-class
array, including index 0 (the self entry): it renders three rows whose
displayed displacements are 7, 9, 11 (the first row being the self entry's),
whereas the walk described by the claim, which skips index 0, renders only
two rows. -/
theorem hierarchy_rows_include_self_counterexample :
    dumpRows memC9 cfgSmall 0 0x700 ≠ dumpRowsSkipSelfSpec memC9 cfgSmall 0 0x700 ∧
    (dumpRows memC9 cfgSmall 0 0x700).length = 3 ∧
    (dumpRowsSkipSelfSpec memC9 cfgSmall 0 0x700).length = 2 ∧
    (dumpRows memC9 cfgSmall 0 0x700).map HierRow.mdisp = [7, 9, 11] :=
  ⟨by decide, by decide, by decide, by decide⟩

/-- C9 amended: after the header, the renderer walks the base-class array
from index 0 (the self entry is rendered as the first row), and row i carries
one indent bar for every index n in 1..i whose entry is still open at row i,
i.e. with n + containedBases(n) at least i: the counter seeded by an entry
with contained-base count N at index j keeps that column open on its own row
(when j is at least 1) and on exactly the next N rendered rows, and index 0's
column is suppressed by the n greater than 0 test. -/
theorem hierarchy_rows_indentation (m : MemImg) (cfg : Config) (base hier : Nat) :
    (dumpRows m cfg base hier).length = read32 m (hier + 8) ∧
    ∀ i, i < read32 m (hier + 8) →
      (dumpRows m cfg base hier)[i]? =
        some ⟨mdispAt m base (base + read32 m (hier + 12)) i,
              barsSpec m base (base + read32 m (hier + 12)) i,
              rowNameAt m cfg base (base + read32 m (hier + 12)) i⟩ := by
  rw [dumpRows_char]
  constructor
  · rw [List.length_map, List.length_range']
  · intro i hi
    rw [List.getElem?_map, List.getElem?_range' 0 1 hi]
    simp

/-- Witness: on memC9 row 1 (the first base class after the self entry) has
displacement 9 and exactly one indent bar, since index 1's own column is
open at its own row while index 0's self column is suppressed. -/
theorem hierarchy_rows_indentation_witness :
    (dumpRows memC9 cfgSmall 0 0x700)[1]? =
      some ⟨mdispAt memC9 0 (0 + read32 memC9 (0x700 + 12)) 1,
            barsSpec memC9 0 (0 + read32 memC9 (0x700 + 12)) 1,
            rowNameAt memC9 cfgSmall 0 (0 + read32 memC9 (0x700 + 12)) 1⟩ :=
  (hierarchy_rows_indentation memC9 cfgSmall 0 0x700).2 1 (by decide)

end SkyRETK
